import Mathlib

/-!
# Verification of the headway tile-serving core

A shallow embedding of `src/common/headway/src` (the multi-source tile
collection, the extraction orchestrator, the service coordinator's download
helper, and the tile HTTP route), with theorems settling the specification
claims.

Modelling conventions:
* Filesystem paths are lists of components (`Path := List String`); Rust's
  component-wise `Path::starts_with` becomes `List.isPrefixOf`.
* Tile bytes are `List Nat`.
* `f64` geographic coordinates are modelled as `Rat`; the claims only copy
  and compare coordinates (no arithmetic), and every concrete coordinate used
  below is exactly representable, so rational comparison agrees with the
  `f64` comparison the code performs.
* Fallible Rust operations return `Except Error _`; `assert!` failure is the
  distinguished `PanicOr.panicked` outcome.
* External capabilities (the pmtiles archive reader, the filesystem's
  `canonicalize`/`exists`, the HTTP client) are parameters: each is a function
  supplied to the operation, never downloaded into the definition.
-/

/-- A filesystem path, as its list of components (mirrors `std::path::Path`
component structure; `starts_with` is component-wise prefix). -/
abbrev FsPath := List String

/-- Raw tile / file bytes. -/
abbrev Bytes := List Nat

/-- The crate error enum from `lib.rs` (`Error`), with the external wrapped
variants (`PmTiles`, `Reqwest`, `Io`) kept abstract. -/
inductive HwError where
  | runtime (msg : String)
  | invalidInput (msg : String)
  | serve (msg : String)
  | pmtiles
  | reqwest
  | io
deriving Repr, DecidableEq

/-- Result of an operation that can also `panic` (Rust `assert!`), besides
returning a typed error or succeeding. -/
inductive PanicOr (ε : Type) (α : Type) where
  | panicked
  | error (e : ε)
  | ok (a : α)
deriving Repr, DecidableEq

/-- `Bounds` from `map_tiles/mod.rs`: four geographic coordinates. -/
structure Bounds where
  max_lat : Rat
  max_lon : Rat
  min_lat : Rat
  min_lon : Rat
deriving Repr, DecidableEq

/-- `Bounds::nesw` from `map_tiles/mod.rs` lines 19-26: the constructor
exported across the binding layer. It builds the record from its four
arguments verbatim; the body contains no comparison or validation. -/
def Bounds.nesw (max_lat max_lon min_lat min_lon : Rat) : Bounds :=
  { max_lat := max_lat
    max_lon := max_lon
    min_lat := min_lat
    min_lon := min_lon }

/-- `RegionRecord` from `map_tiles/mod.rs`. -/
structure RegionRecord where
  bounds : Bounds
  file_name : String
  file_size : Nat
deriving Repr, DecidableEq

/-- `PmTilesSource` from `tile_collection.rs`: an open archive-reader handle
(abstracted as its lookup function: `TileCoord::new` validation plus
`AsyncPmTilesReader::get_tile`), the registration record, and the path. -/
structure PmTilesSource where
  reader : Nat → Nat → Nat → Except HwError (Option Bytes)
  record : RegionRecord
  path : FsPath

/-- `PmTilesSource::get_tile` (tile_collection.rs lines 32-35): one source's
lookup — coordinate validation and archive read, abstracted as the reader
capability. -/
def PmTilesSource.get_tile (s : PmTilesSource) (z x y : Nat) :
    Except HwError (Option Bytes) :=
  s.reader z x y

/-- `TileCollection` from `tile_collection.rs`: an insertion-ordered list of
sources plus the storage root. -/
structure TileCollection where
  pmtiles_sources : List PmTilesSource
  file_root : FsPath

/-- `TileCollection::new`. -/
def TileCollection.new (file_root : FsPath) : TileCollection :=
  { pmtiles_sources := [], file_root := file_root }

/-- `TileCollection::user_extracts_root`: `file_root` with `user` pushed. -/
def TileCollection.user_extracts_root (c : TileCollection) : FsPath :=
  c.file_root ++ ["user"]

/-- `TileCollection::system_root`: `file_root` with `system` pushed. -/
def TileCollection.system_root (c : TileCollection) : FsPath :=
  c.file_root ++ ["system"]

/-- The loop body of `TileCollection::get_tile` (tile_collection.rs lines
124-133): scan the sources in order; a present answer returns immediately,
an error from a source propagates via `?`, absence falls through. -/
def getTileFromSources (sources : List PmTilesSource) (z x y : Nat) :
    Except HwError (Option Bytes) :=
  match sources with
  | [] => .ok none
  | s :: rest =>
    match s.get_tile z x y with
    | .error e => .error e
    | .ok (some tile) => .ok (some tile)
    | .ok none => getTileFromSources rest z x y

/-- `TileCollection::get_tile` (tile_collection.rs lines 123-134). -/
def TileCollection.get_tile (c : TileCollection) (z x y : Nat) :
    Except HwError (Option Bytes) :=
  getTileFromSources c.pmtiles_sources z x y

/-- Rust's `Vec::position` + index + `Vec::remove` pattern used by
`remove_extract`: find the first source whose `record.file_name` matches,
returning it together with the list with that one occurrence removed. -/
def removeFirstSource (name : String) :
    List PmTilesSource → Option (PmTilesSource × List PmTilesSource)
  | [] => none
  | s :: rest =>
    if s.record.file_name = name then some (s, rest)
    else
      match removeFirstSource name rest with
      | none => none
      | some (t, rest') => some (t, s :: rest')

/-- The filesystem view `remove_extract` consults: `std::fs::exists` (modelled
total — its own I/O-error mode is not exercised by any claim) and
`Path::canonicalize`, which fails (`none`) when the path cannot be resolved,
e.g. does not exist. -/
structure FsView where
  pathExists : FsPath → Bool
  canon : FsPath → Option FsPath

/-- `is_path_within_dir` (tile_collection.rs lines 186-190): canonicalize
`path`, then `dir`, propagating a resolution failure as an I/O error, then
component-wise `Path::starts_with`. -/
def is_path_within_dir (fs : FsView) (path dir : FsPath) :
    Except HwError Bool :=
  match fs.canon path with
  | none => .error .io
  | some p =>
    match fs.canon dir with
    | none => .error .io
    | some d => .ok (d.isPrefixOf p)

/-- Outcome of `remove_extract`: the returned `Result`, the collection after
the call (Rust mutates `self` in place), and the list of files deleted from
disk during the call. -/
structure RemoveOutcome where
  result : PanicOr HwError Unit
  collection : TileCollection
  deleted : List FsPath

/-- `TileCollection::remove_extract` (tile_collection.rs lines 70-90):
look up the first source by `file_name` (not-found error if absent);
`assert!(fs::exists(path)?)` — a panic when the file is gone; then the
`is_path_within_dir` containment check against `user_extracts_root`
(validation error when outside, I/O error when canonicalization fails);
only then delete the file and drop the in-memory entry. -/
def TileCollection.remove_extract (c : TileCollection) (fs : FsView)
    (file_name : String) : RemoveOutcome :=
  match removeFirstSource file_name c.pmtiles_sources with
  | none =>
    { result := .error (.runtime "no pmtiles source exists with file_name")
      collection := c
      deleted := [] }
  | some (src, rest) =>
    if fs.pathExists src.path then
      match is_path_within_dir fs src.path c.user_extracts_root with
      | .error e => { result := .error e, collection := c, deleted := [] }
      | .ok false =>
        { result := .error (.runtime "Can only remove extracts within user tile dir")
          collection := c
          deleted := [] }
      | .ok true =>
        { result := .ok ()
          collection := { c with pmtiles_sources := rest }
          deleted := [src.path] }
    else
      { result := .panicked, collection := c, deleted := [] }

/-- What opening a pmtiles archive yields: the header bounds and the reader's
lookup capability (`AsyncPmTilesReader::new_with_path` + `get_header`). -/
structure ArchiveInfo where
  header_bounds : Bounds
  reader : Nat → Nat → Nat → Except HwError (Option Bytes)

/-- The capabilities `add_source` consumes: archive opening (`none` = open or
format error) and `fs::metadata(..).len()` (`none` = I/O error). -/
structure ArchiveFs where
  openArchive : FsPath → Option ArchiveInfo
  metadataLen : FsPath → Option Nat

/-- Outcome of `add_source`: the returned `Result` and the collection after
the call. -/
structure AddOutcome where
  result : Except HwError RegionRecord
  collection : TileCollection

/-- `TileCollection::add_source` (tile_collection.rs lines 136-183): reject a
path without a file name or parent file name; open the archive (failure
propagates); build `Bounds` from the header; take `file_name` as the path's
final component and `file_size` from metadata; append the new source. The
collection is only mutated in the final, fully successful branch. -/
def TileCollection.add_source (c : TileCollection) (afs : ArchiveFs)
    (path : FsPath) : AddOutcome :=
  match path.getLast? with
  | none => { result := .error (.runtime "invalid source path"), collection := c }
  | some name =>
    match path.dropLast.getLast? with
    | none => { result := .error (.runtime "invalid source path"), collection := c }
    | some _ =>
      match afs.openArchive path with
      | none => { result := .error .pmtiles, collection := c }
      | some info =>
        match afs.metadataLen path with
        | none => { result := .error .io, collection := c }
        | some len =>
          let record : RegionRecord :=
            { bounds := info.header_bounds, file_name := name, file_size := len }
          { result := .ok record
            collection :=
              { c with
                pmtiles_sources :=
                  c.pmtiles_sources ++
                    [{ reader := info.reader, record := record, path := path }] } }

/-- Split a file name at its last `.`: `some (stem, ext)` when a dot exists,
`none` otherwise (char-list level; used by the `Path::extension` /
`Path::with_extension` model). -/
def extSplitAux : List Char → Option (List Char × List Char)
  | [] => none
  | c :: rest =>
    match extSplitAux rest with
    | some (st, ex) => some (c :: st, ex)
    | none => if c = '.' then some ([], rest) else none

/-- Rust `Path::extension` restricted to one file-name component: the part
after the last dot, except that a name whose only dot is leading (a hidden
file like `.profile`) has no extension. -/
def fileExtension (s : String) : Option String :=
  match extSplitAux s.data with
  | some (st, ex) => if st.isEmpty then none else some (String.mk ex)
  | none => none

/-- Rust `Path::file_stem` restricted to one file-name component. -/
def fileStem (s : String) : String :=
  match extSplitAux s.data with
  | some (st, _) => if st.isEmpty then s else String.mk st
  | none => s

/-- Rust `Path::with_extension` on one file-name component, for the nonempty
extensions used by the code: stem plus `.` plus the new extension. -/
def withExtensionStr (s ext : String) : String :=
  fileStem s ++ "." ++ ext

/-- Rust `Path::with_extension` at the path level: replace the extension of
the final component (the code only applies it to paths with a file name). -/
def pathWithExtension (p : FsPath) (ext : String) : FsPath :=
  match p.getLast? with
  | none => p
  | some last => p.dropLast ++ [withExtensionStr last ext]

/-- A mutable filesystem: contents by path (`none` = no file). -/
def Fs : Type := FsPath → Option Bytes

/-- Create/truncate-and-write a file (`File::create` + writes, or
`std::fs::write`). -/
def fsWrite (fs : Fs) (p : FsPath) (b : Bytes) : Fs :=
  fun q => if q = p then some b else fs q

/-- `std::fs::rename src dst`: `dst` receives `src`'s content, `src` is
gone. -/
def fsRename (fs : Fs) (src dst : FsPath) : Fs :=
  fun q => if q = dst then fs src else if q = src then none else fs q

/-- Where `extract_pmtiles_region` stops: each constructor is one of the
fallible steps of extract.rs lines 68-112 failing there (with, for a failed
`extract_to_writer`, the prefix of the archive already streamed into the
temporary file), or the whole call succeeding. -/
inductive ExtractOutcome where
  | readerFail
  | createFail
  | writeFail (written : Bytes)
  | metadataFail
  | renameFail
  | success
deriving Repr, DecidableEq

/-- Result of `extract_pmtiles_region`: the returned `Result` and the
filesystem afterwards. -/
structure ExtractResult where
  result : Except HwError Unit
  fs : Fs

/-- `Extractor::extract_pmtiles_region` (extract.rs lines 68-112), as its
filesystem effect: ensure the remote reader (can fail before any file I/O);
`tmp_path = output_path.with_extension("tmp")`; `File::create(&tmp_path)`;
stream the archive named by the plan (`planContent`) to the temporary file;
close it; read its metadata; `rename(&tmp_path, output_path)`. The parameter
`o` selects which step, if any, fails. On any failure the temporary file may
hold partial or complete content, and `output_path` is written only by the
final rename of the success branch. -/
def extract_pmtiles_region (fs : Fs) (output_path : FsPath)
    (planContent : Bytes) (o : ExtractOutcome) : ExtractResult :=
  let tmp := pathWithExtension output_path "tmp"
  match o with
  | .readerFail => { result := .error .reqwest, fs := fs }
  | .createFail => { result := .error .io, fs := fs }
  | .writeFail written => { result := .error .pmtiles, fs := fsWrite fs tmp written }
  | .metadataFail => { result := .error .io, fs := fsWrite fs tmp planContent }
  | .renameFail => { result := .error .io, fs := fsWrite fs tmp planContent }
  | .success =>
    { result := .ok ()
      fs := fsRename (fsWrite fs tmp planContent) tmp output_path }

/-- The HTTP client capability `download_system_pmtiles_if_necessary` uses:
`reqwest::get(url)` + `.bytes()`, `none` = network error. -/
structure Network where
  fetch : String → Option Bytes

/-- Outcome of `download_system_pmtiles_if_necessary`: the returned `Result`,
the filesystem and collection afterwards, and how many network requests were
performed during the call. -/
structure DownloadOutcome where
  result : Except HwError Unit
  fs : Fs
  collection : TileCollection
  networkRequests : Nat

/-- `HeadwayServer::download_system_pmtiles_if_necessary` (server/mod.rs lines
226-254): destination is `system_root/destination_filename`; reject a name
whose extension is not `pmtiles`; if the destination already exists, return
`Ok` at once (no fetch, no write, no registration); otherwise fetch the full
body, write it to the destination, then register it with `add_source`,
propagating its failure. -/
def download_system_pmtiles_if_necessary (c : TileCollection) (fs : Fs)
    (afs : ArchiveFs) (net : Network) (source_url destination_filename : String) :
    DownloadOutcome :=
  let destination_path := c.system_root ++ [destination_filename]
  if fileExtension destination_filename ≠ some "pmtiles" then
    { result := .error (.invalidInput "destination must end with .pmtiles")
      fs := fs, collection := c, networkRequests := 0 }
  else if (fs destination_path).isSome then
    { result := .ok (), fs := fs, collection := c, networkRequests := 0 }
  else
    match net.fetch source_url with
    | none =>
      { result := .error .reqwest, fs := fs, collection := c, networkRequests := 1 }
    | some body =>
      let fs' := fsWrite fs destination_path body
      let out := c.add_source afs destination_path
      match out.result with
      | .error e =>
        { result := .error e, fs := fs', collection := out.collection
          networkRequests := 1 }
      | .ok _ =>
        { result := .ok (), fs := fs', collection := out.collection
          networkRequests := 1 }

/-- `str::strip_prefix` on char lists (helper for the suffix strip below). -/
def stripPrefixL : List Char → List Char → Option (List Char)
  | [], s => some s
  | _ :: _, [] => none
  | p :: ps, c :: cs => if p = c then stripPrefixL ps cs else none

/-- `str::strip_suffix` on char lists: `some` of the remainder when `suffix`
is a suffix of `s`, `none` otherwise. -/
def stripSuffixL (s suffix : List Char) : Option (List Char) :=
  match stripPrefixL suffix.reverse s.reverse with
  | some rest => some rest.reverse
  | none => none

/-- Digit-accumulating loop of Rust's `u32::from_str`: every remaining
character must be an ASCII digit. -/
def parseDigitsAux : List Char → Nat → Option Nat
  | [], acc => some acc
  | c :: rest, acc =>
    if c.isDigit then parseDigitsAux rest (acc * 10 + (c.toNat - 48)) else none

/-- Rust `str::parse::<u32>`: an optional leading `+`, then at least one
digit, all digits, and the value must fit in 32 bits. -/
def parseU32 (cs : List Char) : Option Nat :=
  let ds := match cs with
    | '+' :: rest => rest
    | other => other
  match ds with
  | [] => none
  | _ =>
    match parseDigitsAux ds 0 with
    | none => none
    | some n => if n < 2 ^ 32 then some n else none

/-- The tile route's response (server/tileserver.rs `get_tile`): the status
plus, for a served tile, the body and the fixed header pair. -/
inductive HttpResponse where
  | badRequest
  | notFound
  | internalError
  | okTile (body : Bytes) (contentType : String) (contentEncoding : String)
deriving Repr, DecidableEq

/-- Outcome of the tile route: the response and whether the collection was
consulted (the read lock taken and `TileCollection::get_tile` called). -/
structure RouteOutcome where
  response : HttpResponse
  consultedCollection : Bool
deriving Repr, DecidableEq

/-- The tile HTTP route `get_tile` (server/tileserver.rs lines 7-52). `z` and
`x` arrive already parsed by the router's path extractor; the route itself
strips the `.pbf` suffix from `y_with_ext` and parses the remainder as `u32`,
answering 400 before touching the collection if either fails; otherwise it
calls `lookup` (the collection's `get_tile` under the read lock) and maps
error → 500, absent → 404, present → 200 with content type
`application/x-protobuf` and content encoding `gzip`. -/
def tileRoute (lookup : Nat → Nat → Nat → Except HwError (Option Bytes))
    (z x : Nat) (y_with_ext : String) : RouteOutcome :=
  match stripSuffixL y_with_ext.data ".pbf".data with
  | none => { response := .badRequest, consultedCollection := false }
  | some yChars =>
    match parseU32 yChars with
    | none => { response := .badRequest, consultedCollection := false }
    | some y =>
      match lookup z x y with
      | .error _ => { response := .internalError, consultedCollection := true }
      | .ok none => { response := .notFound, consultedCollection := true }
      | .ok (some tileData) =>
        { response := .okTile tileData "application/x-protobuf" "gzip"
          consultedCollection := true }

lemma getTileFromSources_first_present (z x y : Nat) (sources : List PmTilesSource) :
    ∀ (i : Nat) (s : PmTilesSource) (b : Bytes),
      (∀ s' ∈ sources.take i, s'.get_tile z x y = .ok none) →
      sources[i]? = some s →
      s.get_tile z x y = .ok (some b) →
      getTileFromSources sources z x y = .ok (some b) := by
  induction sources with
  | nil => intro i s b _ hi _; simp at hi
  | cons a rest ih =>
    intro i s b habs hi hs
    cases i with
    | zero =>
      simp at hi
      subst hi
      simp [getTileFromSources, hs]
    | succ i =>
      have ha : a.get_tile z x y = .ok none := by
        apply habs
        simp [List.take_succ_cons]
      simp only [List.getElem?_cons_succ] at hi
      have hrest := ih i s b
        (fun s' hs' => habs s' (by simp [List.take_succ_cons, hs'])) hi hs
      simp [getTileFromSources, ha, hrest]

lemma getTileFromSources_first_error (z x y : Nat) (sources : List PmTilesSource) :
    ∀ (i : Nat) (s : PmTilesSource) (e : HwError),
      (∀ s' ∈ sources.take i, s'.get_tile z x y = .ok none) →
      sources[i]? = some s →
      s.get_tile z x y = .error e →
      getTileFromSources sources z x y = .error e := by
  induction sources with
  | nil => intro i s e _ hi _; simp at hi
  | cons a rest ih =>
    intro i s e habs hi hs
    cases i with
    | zero =>
      simp at hi
      subst hi
      simp [getTileFromSources, hs]
    | succ i =>
      have ha : a.get_tile z x y = .ok none := by
        apply habs
        simp [List.take_succ_cons]
      simp only [List.getElem?_cons_succ] at hi
      have hrest := ih i s e
        (fun s' hs' => habs s' (by simp [List.take_succ_cons, hs'])) hi hs
      simp [getTileFromSources, ha, hrest]

lemma getTileFromSources_all_absent (z x y : Nat) (sources : List PmTilesSource)
    (habs : ∀ s ∈ sources, s.get_tile z x y = .ok none) :
    getTileFromSources sources z x y = .ok none := by
  induction sources with
  | nil => simp [getTileFromSources]
  | cons a rest ih =>
    have ha : a.get_tile z x y = .ok none := habs a (by simp)
    simp [getTileFromSources, ha, ih (fun s hs => habs s (by simp [hs]))]

/-- Claim C1: `get_tile` scans the sources in registration order and returns
the tile from the first (smallest-indexed) source whose lookup is present —
a later source is never consulted once an earlier one answers — and when
every source reports absence it returns absence (`Ok(None)`), not an
error. -/
theorem TileCollection.get_tile_first_match_wins (c : TileCollection) (z x y : Nat) :
    (∀ (i : Nat) (s : PmTilesSource) (b : Bytes),
        (∀ s' ∈ c.pmtiles_sources.take i, s'.get_tile z x y = .ok none) →
        c.pmtiles_sources[i]? = some s →
        s.get_tile z x y = .ok (some b) →
        c.get_tile z x y = .ok (some b))
    ∧ ((∀ s ∈ c.pmtiles_sources, s.get_tile z x y = .ok none) →
        c.get_tile z x y = .ok none) := by
  constructor
  · intro i s b habs hi hs
    exact getTileFromSources_first_present z x y c.pmtiles_sources i s b habs hi hs
  · intro habs
    exact getTileFromSources_all_absent z x y c.pmtiles_sources habs

/-- Claim C1, witnessed: in a concrete two-source collection whose first
source is absent at `(1, 2, 3)` and whose second holds `[7, 8]` there,
`get_tile` returns the second source's bytes. -/
theorem TileCollection.get_tile_first_match_wins_witness :
    TileCollection.get_tile
      { pmtiles_sources :=
          [ { reader := fun _ _ _ => .ok none
              record := { bounds := Bounds.nesw 1 1 0 0, file_name := "a.pmtiles", file_size := 3 }
              path := ["root", "user", "a.pmtiles"] }
          , { reader := fun _ _ _ => .ok (some [7, 8])
              record := { bounds := Bounds.nesw 1 1 0 0, file_name := "b.pmtiles", file_size := 4 }
              path := ["root", "user", "b.pmtiles"] } ]
        file_root := ["root"] } 1 2 3 = .ok (some [7, 8]) := by
  apply (TileCollection.get_tile_first_match_wins _ 1 2 3).1 1 _ [7, 8]
  · intro s' hs'
    simp at hs'
    subst hs'
    rfl
  · rfl
  · rfl

/-- Claim C6: if the first non-absent answer in registration order is a read
error from some source, `get_tile` returns that error rather than skipping
the failing source and consulting later sources. -/
theorem TileCollection.get_tile_error_aborts (c : TileCollection) (z x y : Nat)
    (i : Nat) (s : PmTilesSource) (e : HwError)
    (habs : ∀ s' ∈ c.pmtiles_sources.take i, s'.get_tile z x y = .ok none)
    (hi : c.pmtiles_sources[i]? = some s)
    (herr : s.get_tile z x y = .error e) :
    c.get_tile z x y = .error e :=
  getTileFromSources_first_error z x y c.pmtiles_sources i s e habs hi herr

/-- Claim C6, witnessed: a concrete collection whose first source is absent
and whose second errors with an I/O error; `get_tile` returns the error even
though a third source holds the tile. -/
theorem TileCollection.get_tile_error_aborts_witness :
    TileCollection.get_tile
      { pmtiles_sources :=
          [ { reader := fun _ _ _ => .ok none
              record := { bounds := Bounds.nesw 1 1 0 0, file_name := "a.pmtiles", file_size := 3 }
              path := ["root", "user", "a.pmtiles"] }
          , { reader := fun _ _ _ => .error .io
              record := { bounds := Bounds.nesw 1 1 0 0, file_name := "b.pmtiles", file_size := 4 }
              path := ["root", "user", "b.pmtiles"] }
          , { reader := fun _ _ _ => .ok (some [9])
              record := { bounds := Bounds.nesw 1 1 0 0, file_name := "c.pmtiles", file_size := 5 }
              path := ["root", "user", "c.pmtiles"] } ]
        file_root := ["root"] } 1 2 3 = .error .io := by
  apply TileCollection.get_tile_error_aborts _ 1 2 3 1 _ .io
  · intro s' hs'
    simp at hs'
    subst hs'
    rfl
  · rfl
  · rfl

/-- Claim C3: when the registered source matching `file_name` resolves (path
and user-extracts directory both canonicalized) to a canonical path that is
not within the `user/` subtree, `remove_extract` returns the validation
error, deletes nothing, and leaves the source list unchanged; and when no
registered source matches `file_name`, it returns the not-found error with no
side effects. -/
theorem TileCollection.remove_extract_validates (c : TileCollection) (fs : FsView)
    (file_name : String) :
    (∀ (src : PmTilesSource) (rest : List PmTilesSource) (p d : FsPath),
        removeFirstSource file_name c.pmtiles_sources = some (src, rest) →
        fs.pathExists src.path = true →
        fs.canon src.path = some p →
        fs.canon c.user_extracts_root = some d →
        d.isPrefixOf p = false →
        c.remove_extract fs file_name =
          { result := .error (.runtime "Can only remove extracts within user tile dir")
            collection := c
            deleted := [] })
    ∧ (removeFirstSource file_name c.pmtiles_sources = none →
        c.remove_extract fs file_name =
          { result := .error (.runtime "no pmtiles source exists with file_name")
            collection := c
            deleted := [] }) := by
  constructor
  · intro src rest p d hfind hex hcp hcd hpre
    simp [TileCollection.remove_extract, hfind, hex, is_path_within_dir, hcp, hcd, hpre]
  · intro hfind
    simp [TileCollection.remove_extract, hfind]

/-- Claim C3, witnessed: a collection whose single source "a.pmtiles" sits
under `system/` (outside `user/`), with an identity canonicalizer and the
file present: `remove_extract` returns the validation error and changes
nothing; and a name with no matching source returns the not-found error. -/
theorem TileCollection.remove_extract_validates_witness :
    TileCollection.remove_extract
      { pmtiles_sources :=
          [ { reader := fun _ _ _ => .ok none
              record := { bounds := Bounds.nesw 1 1 0 0, file_name := "a.pmtiles", file_size := 3 }
              path := ["root", "system", "a.pmtiles"] } ]
        file_root := ["root"] }
      { pathExists := fun _ => true, canon := fun p => some p } "a.pmtiles" =
      { result := .error (.runtime "Can only remove extracts within user tile dir")
        collection :=
          { pmtiles_sources :=
              [ { reader := fun _ _ _ => .ok none
                  record := { bounds := Bounds.nesw 1 1 0 0, file_name := "a.pmtiles", file_size := 3 }
                  path := ["root", "system", "a.pmtiles"] } ]
            file_root := ["root"] }
        deleted := [] } := by
  apply (TileCollection.remove_extract_validates _ _ _).1 _ []
    ["root", "system", "a.pmtiles"] ["root", "user"]
  · rfl
  · rfl
  · rfl
  · rfl
  · decide

/-- Claim C9: when a source matching `file_name` is registered but its
recorded file no longer exists on disk, `remove_extract` hits the
`assert!(fs::exists(path)?)` and panics instead of returning a typed error;
the collection and disk are untouched. -/
theorem TileCollection.remove_extract_panics_when_file_gone (c : TileCollection)
    (fs : FsView) (file_name : String) (src : PmTilesSource)
    (rest : List PmTilesSource)
    (hfind : removeFirstSource file_name c.pmtiles_sources = some (src, rest))
    (hgone : fs.pathExists src.path = false) :
    c.remove_extract fs file_name =
      { result := .panicked, collection := c, deleted := [] } := by
  simp [TileCollection.remove_extract, hfind, hgone]

/-- Claim C9, witnessed: a registered user extract whose file was removed out
of band makes `remove_extract` panic. -/
theorem TileCollection.remove_extract_panics_when_file_gone_witness :
    TileCollection.remove_extract
      { pmtiles_sources :=
          [ { reader := fun _ _ _ => .ok none
              record := { bounds := Bounds.nesw 1 1 0 0, file_name := "a.pmtiles", file_size := 3 }
              path := ["root", "user", "a.pmtiles"] } ]
        file_root := ["root"] }
      { pathExists := fun _ => false, canon := fun p => some p } "a.pmtiles" =
      { result := .panicked
        collection :=
          { pmtiles_sources :=
              [ { reader := fun _ _ _ => .ok none
                  record := { bounds := Bounds.nesw 1 1 0 0, file_name := "a.pmtiles", file_size := 3 }
                  path := ["root", "user", "a.pmtiles"] } ]
            file_root := ["root"] }
        deleted := [] } := by
  apply TileCollection.remove_extract_panics_when_file_gone _ _ _ _ []
  · rfl
  · rfl

/-- Claim C4, counterexample: `Bounds::nesw 0 0 1 1` is a constructor call
producing a `Bounds` with `max_lat = 0 < 1 = min_lat` (and likewise for
longitude), so the constructor does let a `Bounds` with max < min through:
construction performs no validation. -/
theorem Bounds.nesw_no_validation_cex :
    ¬ ((Bounds.nesw 0 0 1 1).min_lat ≤ (Bounds.nesw 0 0 1 1).max_lat ∧
       (Bounds.nesw 0 0 1 1).min_lon ≤ (Bounds.nesw 0 0 1 1).max_lon) := by
  decide

/-- Claim C4 as amended: `Bounds::nesw` performs no validation at all — it
returns the record whose fields are exactly its four arguments, so any
combination of coordinates, including max < min on either axis, is obtainable
from the constructor. -/
theorem Bounds.nesw_stores_fields_verbatim (max_lat max_lon min_lat min_lon : Rat) :
    Bounds.nesw max_lat max_lon min_lat min_lon =
      { max_lat := max_lat, max_lon := max_lon, min_lat := min_lat, min_lon := min_lon } :=
  rfl

/-- Concrete reader used by the C5 counterexample sources. -/
def cexReader : Nat → Nat → Nat → Except HwError (Option Bytes) :=
  fun _ _ _ => .ok none

/-- Concrete bounds used by the C5 counterexample. -/
def cexBounds : Bounds := Bounds.nesw 1 1 0 0

/-- A collection already holding a source registered from
`user/a.pmtiles`. -/
def cexCollection : TileCollection :=
  { pmtiles_sources :=
      [ { reader := cexReader
          record := { bounds := cexBounds, file_name := "a.pmtiles", file_size := 5 }
          path := ["root", "user", "a.pmtiles"] } ]
    file_root := ["root"] }

/-- An archive filesystem on which every archive opens successfully. -/
def cexArchiveFs : ArchiveFs :=
  { openArchive := fun _ => some { header_bounds := cexBounds, reader := cexReader }
    metadataLen := fun _ => some 5 }

/-- Claim C5, counterexample: starting from a collection whose registered
file names are pairwise distinct (`["a.pmtiles"]`), a successful `add_source`
of `system/a.pmtiles` — a different path with the same final component —
yields file names `["a.pmtiles", "a.pmtiles"]`: `add_source` appends without
any uniqueness check, so mutation does not preserve distinctness of
`file_name`. -/
theorem TileCollection.add_source_uniqueness_cex :
    (cexCollection.pmtiles_sources.map (fun s => s.record.file_name)).Nodup
    ∧ (cexCollection.add_source cexArchiveFs ["root", "system", "a.pmtiles"]).result =
        .ok { bounds := cexBounds, file_name := "a.pmtiles", file_size := 5 }
    ∧ ((cexCollection.add_source cexArchiveFs
          ["root", "system", "a.pmtiles"]).collection.pmtiles_sources.map
            (fun s => s.record.file_name)) = ["a.pmtiles", "a.pmtiles"]
    ∧ ¬ ((cexCollection.add_source cexArchiveFs
          ["root", "system", "a.pmtiles"]).collection.pmtiles_sources.map
            (fun s => s.record.file_name)).Nodup := by
  refine ⟨by decide, rfl, rfl, by decide⟩

lemma add_source_ok_names (c : TileCollection) (afs : ArchiveFs) (path : FsPath)
    (r : RegionRecord) (hok : (c.add_source afs path).result = .ok r) :
    ((c.add_source afs path).collection.pmtiles_sources.map (fun s => s.record.file_name)) =
      (c.pmtiles_sources.map (fun s => s.record.file_name)) ++ [r.file_name]
    ∧ path.getLast? = some r.file_name := by
  unfold TileCollection.add_source at hok ⊢
  cases hlast : path.getLast? with
  | none => simp [hlast] at hok
  | some name =>
    cases hpar : path.dropLast.getLast? with
    | none => simp [hlast, hpar] at hok
    | some parentName =>
      cases hopen : afs.openArchive path with
      | none => simp [hlast, hpar, hopen] at hok
      | some info =>
        cases hlen : afs.metadataLen path with
        | none => simp [hlast, hpar, hopen, hlen] at hok
        | some len =>
          simp [hlast, hpar, hopen, hlen] at hok ⊢
          subst hok
          simp

/-- Claim C5 as amended: `add_source` appends exactly one source, whose
`file_name` is the path's final component, and performs no uniqueness check;
file-name distinctness is therefore preserved exactly under the precondition
that the new name is not already registered (removal, which only drops an
entry, needs no such precondition). -/
theorem TileCollection.add_source_uniqueness_amended (c : TileCollection)
    (afs : ArchiveFs) (path : FsPath) (r : RegionRecord)
    (hok : (c.add_source afs path).result = .ok r)
    (hdistinct : (c.pmtiles_sources.map (fun s => s.record.file_name)).Nodup)
    (hnew : r.file_name ∉ c.pmtiles_sources.map (fun s => s.record.file_name)) :
    ((c.add_source afs path).collection.pmtiles_sources.map
        (fun s => s.record.file_name)).Nodup
    ∧ ((c.add_source afs path).collection.pmtiles_sources.map
        (fun s => s.record.file_name)) =
        (c.pmtiles_sources.map (fun s => s.record.file_name)) ++ [r.file_name] := by
  obtain ⟨hnames, -⟩ := add_source_ok_names c afs path r hok
  refine ⟨?_, hnames⟩
  rw [hnames]
  simp [List.nodup_append, hdistinct]
  intro a ha hcontra
  exact hnew (hcontra ▸ List.mem_map_of_mem (fun s => s.record.file_name) ha)

/-- Claim C5 as amended, witnessed: adding `system/b.pmtiles` to a collection
already holding only `a.pmtiles` keeps the registered file names pairwise
distinct. -/
theorem TileCollection.add_source_uniqueness_amended_witness :
    ((cexCollection.add_source cexArchiveFs ["root", "system", "b.pmtiles"]).collection.pmtiles_sources.map
        (fun s => s.record.file_name)).Nodup
    ∧ ((cexCollection.add_source cexArchiveFs ["root", "system", "b.pmtiles"]).collection.pmtiles_sources.map
        (fun s => s.record.file_name)) = ["a.pmtiles"] ++ ["b.pmtiles"] :=
  TileCollection.add_source_uniqueness_amended cexCollection cexArchiveFs
    ["root", "system", "b.pmtiles"]
    { bounds := cexBounds, file_name := "b.pmtiles", file_size := 5 }
    rfl (by decide) (by decide)

lemma extSplitAux_of_no_dot (l : List Char) (h : '.' ∉ l) : extSplitAux l = none := by
  induction l with
  | nil => rfl
  | cons c rest ih =>
    have hc : c ≠ '.' := fun hc => h (by simp [hc])
    have hrest : extSplitAux rest = none := ih (fun hm => h (by simp [hm]))
    simp [extSplitAux, hrest, hc]

lemma extSplitAux_append_dot (l₁ l₂ : List Char) (h : '.' ∉ l₂) :
    extSplitAux (l₁ ++ '.' :: l₂) = some (l₁, l₂) := by
  induction l₁ with
  | nil => simp [extSplitAux, extSplitAux_of_no_dot l₂ h]
  | cons c rest ih => simp [extSplitAux, ih]

lemma fileExtension_split (s : String) (e : String)
    (h : fileExtension s = some e) :
    extSplitAux s.data = some ((fileStem s).data, e.data) ∧ (fileStem s).data ≠ [] := by
  unfold fileExtension at h
  cases hsplit : extSplitAux s.data with
  | none => simp [hsplit] at h
  | some pr =>
    obtain ⟨st, ex⟩ := pr
    rw [hsplit] at h
    by_cases hst : st.isEmpty
    · simp [hst] at h
    · simp [hst] at h
      subst h
      constructor
      · unfold fileStem
        rw [hsplit]
        simp [hst]
      · unfold fileStem
        rw [hsplit]
        simp [hst]
        simpa [List.isEmpty_iff] using hst

lemma withExtensionStr_data (s ext : String) :
    (withExtensionStr s ext).data = (fileStem s).data ++ '.' :: ext.data := by
  show (fileStem s ++ "." ++ ext).data = _
  simp [String.data_append]

lemma fileExtension_withExtensionStr_tmp (s : String) (e : String)
    (h : fileExtension s = some e) :
    fileExtension (withExtensionStr s "tmp") = some "tmp" := by
  obtain ⟨-, hne⟩ := fileExtension_split s e h
  unfold fileExtension
  rw [withExtensionStr_data]
  rw [extSplitAux_append_dot _ _ (by decide)]
  simp [List.isEmpty_iff, hne]

lemma withExtensionStr_tmp_ne (s : String) (h : fileExtension s = some "pmtiles") :
    withExtensionStr s "tmp" ≠ s := by
  intro heq
  have := fileExtension_withExtensionStr_tmp s "pmtiles" h
  rw [heq, h] at this
  simp at this

lemma pathWithExtension_tmp_ne (p : FsPath) (last : String)
    (hlast : p.getLast? = some last)
    (hext : fileExtension last = some "pmtiles") :
    pathWithExtension p "tmp" ≠ p := by
  intro heq
  have hsplit : p.dropLast ++ [last] = p :=
    List.dropLast_append_getLast? last (by simp [hlast])
  unfold pathWithExtension at heq
  rw [hlast] at heq
  simp only at heq
  have h2 : p.dropLast ++ [withExtensionStr last "tmp"] = p.dropLast ++ [last] :=
    heq.trans hsplit.symm
  have h3 := List.append_cancel_left h2
  simp at h3
  exact withExtensionStr_tmp_ne last hext h3

/-- Claim C2: for any extract call whose `output_path` has the `pmtiles`
extension (as every call in the program does — the output path is always
`user/<uuid>.pmtiles`), the temporary path `output_path.with_extension("tmp")`
differs from `output_path`, so: when any step fails (reader setup, creating
the temporary file, streaming, metadata, or the final rename), the returned
result is an error and the filesystem at `output_path` is exactly what it was
before the call — in particular, if `output_path` did not exist it is still
not created, though the temporary file may remain; and when the call
succeeds, `output_path` holds the complete extracted archive, installed only
by the final rename of the fully written, closed temporary file. -/
theorem extract_pmtiles_region_atomic (fs : Fs) (output_path : FsPath)
    (planContent : Bytes) (o : ExtractOutcome) (last : String)
    (hlast : output_path.getLast? = some last)
    (hext : fileExtension last = some "pmtiles") :
    ((extract_pmtiles_region fs output_path planContent o).result = .ok () →
        (extract_pmtiles_region fs output_path planContent o).fs output_path =
          some planContent)
    ∧ (∀ e, (extract_pmtiles_region fs output_path planContent o).result = .error e →
        (extract_pmtiles_region fs output_path planContent o).fs output_path =
          fs output_path) := by
  have hne : output_path ≠ pathWithExtension output_path "tmp" :=
    fun h => pathWithExtension_tmp_ne output_path last hlast hext h.symm
  constructor
  · intro hok
    cases o with
    | readerFail => simp [extract_pmtiles_region] at hok
    | createFail => simp [extract_pmtiles_region] at hok
    | writeFail w => simp [extract_pmtiles_region] at hok
    | metadataFail => simp [extract_pmtiles_region] at hok
    | renameFail => simp [extract_pmtiles_region] at hok
    | success => simp [extract_pmtiles_region, fsRename, fsWrite]
  · intro e herr
    cases o with
    | readerFail => rfl
    | createFail => rfl
    | writeFail w => simp [extract_pmtiles_region, fsWrite, hne]
    | metadataFail => simp [extract_pmtiles_region, fsWrite, hne]
    | renameFail => simp [extract_pmtiles_region, fsWrite, hne]
    | success => simp [extract_pmtiles_region] at herr

/-- Claim C2, witnessed: on an empty filesystem with output path
`root/user/x.pmtiles`, a failed streaming step leaves `output_path` still
absent, and a successful run leaves the complete archive bytes there. -/
theorem extract_pmtiles_region_atomic_witness :
    (extract_pmtiles_region (fun _ => none) ["root", "user", "x.pmtiles"] [1, 2]
        (.writeFail [1])).fs ["root", "user", "x.pmtiles"] = none
    ∧ (extract_pmtiles_region (fun _ => none) ["root", "user", "x.pmtiles"] [1, 2]
        .success).fs ["root", "user", "x.pmtiles"] = some [1, 2] := by
  constructor
  · exact ((extract_pmtiles_region_atomic (fun _ => none)
      ["root", "user", "x.pmtiles"] [1, 2] (.writeFail [1])
      "x.pmtiles" rfl (by decide)).2 .pmtiles rfl).trans rfl
  · exact (extract_pmtiles_region_atomic (fun _ => none)
      ["root", "user", "x.pmtiles"] [1, 2] .success
      "x.pmtiles" rfl (by decide)).1 rfl

/-- Claim C7: once the destination file exists, a repeated
`download_system_pmtiles_if_necessary` call with the same (valid-extension)
destination filename returns `Ok` from the existence short-circuit: zero
network requests, the filesystem untouched, and the registered-source list
(hence its size) unchanged. -/
theorem download_idempotent_when_present (c : TileCollection) (fs : Fs)
    (afs : ArchiveFs) (net : Network) (url fname : String) (b : Bytes)
    (hext : fileExtension fname = some "pmtiles")
    (hexists : fs (c.system_root ++ [fname]) = some b) :
    download_system_pmtiles_if_necessary c fs afs net url fname =
      { result := .ok (), fs := fs, collection := c, networkRequests := 0 } := by
  unfold download_system_pmtiles_if_necessary
  simp [hext, hexists]

/-- Claim C7, witnessed: with `planet.pmtiles` already on disk under
`root/system`, the call succeeds with zero network requests and nothing
changed. -/
theorem download_idempotent_when_present_witness :
    download_system_pmtiles_if_necessary (TileCollection.new ["root"])
      (fun p => if p = ["root", "system", "planet.pmtiles"] then some [1] else none)
      { openArchive := fun _ => none, metadataLen := fun _ => none }
      { fetch := fun _ => none } "u" "planet.pmtiles" =
      { result := .ok ()
        fs := fun p => if p = ["root", "system", "planet.pmtiles"] then some [1] else none
        collection := TileCollection.new ["root"]
        networkRequests := 0 } :=
  download_idempotent_when_present (TileCollection.new ["root"])
    (fun p => if p = ["root", "system", "planet.pmtiles"] then some [1] else none)
    { openArchive := fun _ => none, metadataLen := fun _ => none }
    { fetch := fun _ => none } "u" "planet.pmtiles" [1] (by decide) (by decide)

/-- Claim C10: when the fetch succeeds but registration fails (the downloaded
archive cannot be opened), the fetched bytes are already written to the
destination before `add_source` runs, so the call errors with the file left
on disk and the source list unchanged; and because the existence check
short-circuits, a repeat call on the resulting state returns `Ok` with zero
network requests and still no registration. -/
theorem download_failure_leaves_file_and_short_circuits (c : TileCollection)
    (fs : Fs) (afs : ArchiveFs) (net : Network) (url fname : String) (body : Bytes)
    (hext : fileExtension fname = some "pmtiles")
    (habsent : fs (c.system_root ++ [fname]) = none)
    (hfetch : net.fetch url = some body)
    (hopen : afs.openArchive (c.system_root ++ [fname]) = none) :
    (download_system_pmtiles_if_necessary c fs afs net url fname).result =
        .error .pmtiles
    ∧ (download_system_pmtiles_if_necessary c fs afs net url fname).fs
        (c.system_root ++ [fname]) = some body
    ∧ (download_system_pmtiles_if_necessary c fs afs net url fname).collection = c
    ∧ download_system_pmtiles_if_necessary c
        (download_system_pmtiles_if_necessary c fs afs net url fname).fs afs net url
        fname =
        { result := .ok ()
          fs := (download_system_pmtiles_if_necessary c fs afs net url fname).fs
          collection := c
          networkRequests := 0 } := by
  have h1 : (c.system_root ++ [fname]).getLast? = some fname :=
    List.getLast?_concat _
  have h2 : (c.system_root ++ [fname]).dropLast.getLast? = some "system" := by
    rw [List.dropLast_concat]
    exact List.getLast?_concat c.file_root
  have h3 : c.system_root.getLast? = some "system" :=
    List.getLast?_concat c.file_root
  have hadd : c.add_source afs (c.system_root ++ [fname]) =
      { result := .error .pmtiles, collection := c } := by
    simp [TileCollection.add_source, h1, h2, h3, hopen]
  have hout1 : download_system_pmtiles_if_necessary c fs afs net url fname =
      { result := .error .pmtiles
        fs := fsWrite fs (c.system_root ++ [fname]) body
        collection := c
        networkRequests := 1 } := by
    unfold download_system_pmtiles_if_necessary
    simp [hext, habsent, hfetch, hadd]
  refine ⟨by rw [hout1], by rw [hout1]; simp [fsWrite], by rw [hout1], ?_⟩
  rw [hout1]
  unfold download_system_pmtiles_if_necessary
  simp [hext, fsWrite]

/-- Claim C10, witnessed: concrete run — fetch yields `[5]`, the archive is
unopenable, the call errors yet `root/system/planet.pmtiles` holds `[5]` on
disk afterwards. -/
theorem download_failure_leaves_file_witness :
    (download_system_pmtiles_if_necessary (TileCollection.new ["root"]) (fun _ => none)
        { openArchive := fun _ => none, metadataLen := fun _ => some 1 }
        { fetch := fun _ => some [5] } "u" "planet.pmtiles").result = .error .pmtiles
    ∧ (download_system_pmtiles_if_necessary (TileCollection.new ["root"]) (fun _ => none)
        { openArchive := fun _ => none, metadataLen := fun _ => some 1 }
        { fetch := fun _ => some [5] } "u" "planet.pmtiles").fs
        ["root", "system", "planet.pmtiles"] = some [5] := by
  have h := download_failure_leaves_file_and_short_circuits (TileCollection.new ["root"])
    (fun _ => none) { openArchive := fun _ => none, metadataLen := fun _ => some 1 }
    { fetch := fun _ => some [5] } "u" "planet.pmtiles" [5] (by decide) rfl rfl rfl
  exact ⟨h.1, h.2.1⟩

/-- Claim C8: the tile route answers 400 without consulting the collection
whenever `y_with_ext` lacks the `.pbf` suffix or its prefix fails to parse as
a `u32`; otherwise it consults the collection exactly once and maps a present
tile to 200 with the fixed `application/x-protobuf` / `gzip` header pair,
absence to 404, and a read error to 500. -/
theorem tileRoute_contract (lookup : Nat → Nat → Nat → Except HwError (Option Bytes))
    (z x : Nat) (y_with_ext : String) :
    ((stripSuffixL y_with_ext.data ".pbf".data = none ∨
        ∃ ys, stripSuffixL y_with_ext.data ".pbf".data = some ys ∧ parseU32 ys = none) →
      tileRoute lookup z x y_with_ext =
        { response := .badRequest, consultedCollection := false })
    ∧ (∀ ys y, stripSuffixL y_with_ext.data ".pbf".data = some ys →
        parseU32 ys = some y →
        ((∀ b, lookup z x y = .ok (some b) →
            tileRoute lookup z x y_with_ext =
              { response := .okTile b "application/x-protobuf" "gzip"
                consultedCollection := true })
         ∧ (lookup z x y = .ok none →
            tileRoute lookup z x y_with_ext =
              { response := .notFound, consultedCollection := true })
         ∧ (∀ e, lookup z x y = .error e →
            tileRoute lookup z x y_with_ext =
              { response := .internalError, consultedCollection := true }))) := by
  constructor
  · intro hbad
    cases hbad with
    | inl hnone => simp [tileRoute, hnone]
    | inr hsome =>
      obtain ⟨ys, hys, hparse⟩ := hsome
      simp [tileRoute, hys, hparse]
  · intro ys y hys hparse
    refine ⟨?_, ?_, ?_⟩
    · intro b hb
      simp [tileRoute, hys, hparse, hb]
    · intro hnone
      simp [tileRoute, hys, hparse, hnone]
    · intro e he
      simp [tileRoute, hys, hparse, he]

/-- Claim C8, witnessed: with a lookup that holds `[3]` everywhere, the path
segment `7.pbf` is served as 200 with the fixed headers; the malformed
segment `abc.pbf` is rejected as 400 without consulting the collection. -/
theorem tileRoute_contract_witness :
    tileRoute (fun _ _ _ => .ok (some [3])) 5 10 "7.pbf" =
      { response := .okTile [3] "application/x-protobuf" "gzip"
        consultedCollection := true }
    ∧ tileRoute (fun _ _ _ => .ok (some [3])) 5 10 "abc.pbf" =
      { response := .badRequest, consultedCollection := false } := by
  constructor
  · exact ((tileRoute_contract (fun _ _ _ => .ok (some [3])) 5 10 "7.pbf").2
      ['7'] 7 (by decide) (by decide)).1 [3] rfl
  · exact (tileRoute_contract (fun _ _ _ => .ok (some [3])) 5 10 "abc.pbf").1
      (Or.inr ⟨['a', 'b', 'c'], by decide, by decide⟩)
